import Mathlib

/-!
Verification development for the contact-manager core of this repository
(`src/Normal_Files/day2_contact_manager.py`).

The Python code is shallowly embedded: Python strings become `List Char`,
JSON values (and arbitrary Python values passed where a string is expected)
become the inductive `JVal`, the `ContactManager` state (the `OrderedDict`
keyed index plus the explicit ordered list) becomes the structure `Store`,
and file I/O is abstracted by the `Source` type (`load` receives the parse
outcome, `save` returns the serialized JSON value).  Operations that can
raise an uncaught exception return `Option`/`Except` values.
-/

set_option linter.unusedVariables false

/-- Python strings are modelled as lists of characters. -/
abbrev Str := List Char

/-- Python `str.strip()`: drop whitespace from both ends. -/
def pyStrip (s : Str) : Str :=
  ((s.dropWhile Char.isWhitespace).reverse.dropWhile Char.isWhitespace).reverse

/-- Python `str.lower()` (character-wise lowering, faithful on ASCII). -/
def pyLower (s : Str) : Str := s.map Char.toLower

/-- Python `re.sub(r"\D", "", s)`: keep only the digit characters. -/
def digitsOf (s : Str) : Str := s.filter Char.isDigit

/-- Python `s[-n:]` (for `0 < n`): the last `n` characters. -/
def lastN (n : Nat) (s : Str) : Str := s.drop (s.length - n)

/-- Python/JSON values, as far as the contact manager inspects them. -/
inductive JVal where
  | jnull
  | jbool (b : Bool)
  | jnum (n : Int)
  | jstr (s : Str)
  | jlist (xs : List JVal)
  | jdict (fs : List (String × JVal))

/-- Python truthiness of a `JVal` (`if raw.get("phone")`, `if not q`, ...). -/
def truthy : JVal → Bool
  | .jnull => false
  | .jbool b => b
  | .jnum n => decide (n ≠ 0)
  | .jstr s => decide (s ≠ [])
  | .jlist xs => !xs.isEmpty
  | .jdict fs => !fs.isEmpty

/-- Python `dict.get(k, dflt)` on a parsed JSON object. -/
def jget (fs : List (String × JVal)) (k : String) (dflt : JVal) : JVal :=
  match fs with
  | [] => dflt
  | (k2, v) :: rest => if k2 = k then v else jget rest k dflt

/-- `normalize_phone` (day2_contact_manager.py, lines 8-23).
Returns the 10-digit normalized phone, or `none` if invalid.
Non-strings are rejected; the `≥ 12` branch keeps the code's tautological
`digits.endswith(re.sub(r"\D", "", phone)[-10:])` test and its redundant
`len(last10) == 10` check. -/
def normalize_phone : JVal → Option Str
  | .jstr phone =>
    let digits := digitsOf phone
    if digits.length = 10 then some digits
    else if digits.length = 11 ∧ digits.head? = some '0' then some (digits.drop 1)
    else if 12 ≤ digits.length ∧ lastN 10 (digitsOf phone) <:+ digits then
      let last10 := lastN 10 digits
      if last10.length = 10 then some last10 else none
    else none
  | _ => none

/-- `normalize_name` (lines 25-29): trim; empty-after-trim (falsy) is `none`. -/
def normalize_name : JVal → Option Str
  | .jstr name =>
    let n := pyStrip name
    if n = [] then none else some n
  | _ => none

/-- A stored contact record (the dict `{"name": ..., "phone": ...}`). -/
structure Contact where
  name : Str
  phone : Str
deriving DecidableEq, Repr

/-- The in-memory `ContactManager` state: `self.contacts` (an `OrderedDict`,
modelled as an ordered association list with unique keys) and the explicit
ordered `self.contacts_list`. -/
structure Store where
  contacts : List (Str × Contact)
  contacts_list : List Contact
deriving DecidableEq, Repr

def emptyStore : Store := ⟨[], []⟩

/-- `key in self.contacts` / `self.contacts[key]`: first-match lookup. -/
def lookupKey : List (Str × Contact) → Str → Option Contact
  | [], _ => none
  | (k2, c) :: rest, k => if k2 = k then some c else lookupKey rest k

/-- `self.contacts[key] = contact`: update in place if the key is present
(keeping its position, as a Python dict does), otherwise append. -/
def dictSet : List (Str × Contact) → Str → Contact → List (Str × Contact)
  | [], k, c => [(k, c)]
  | (k2, c2) :: rest, k, c =>
    if k2 = k then (k, c) :: rest else (k2, c2) :: dictSet rest k c

/-- `self.contacts.pop(key)`: remove the (first) entry with the given key and
return it; `none` in the first component models a `KeyError`. -/
def dictPop : List (Str × Contact) → Str → Option Contact × List (Str × Contact)
  | [], _ => (none, [])
  | (k2, c2) :: rest, k =>
    if k2 = k then (some c2, rest)
    else
      let (r, d) := dictPop rest k
      (r, (k2, c2) :: d)

/-- Python truthiness of an `Optional[str]`: `None` and `""` are falsy, so
`not x` holds exactly when `x.getD [] = []`. -/
def optStr (o : Option Str) : Str := o.getD []

def nameRequiredMsg : String := "Name is required."
def phoneInvalidMsg : String :=
  "Phone is invalid. Provide a valid 10-digit number (country code allowed)."
def duplicateMsg : String := "Phone already exists."

/-- `add_contact` (lines 83-98).  The `ValueError`s become `Except.error`
carrying the raised message; the (possibly updated) store is returned
alongside, the raises happening before any mutation. -/
def add_contact (st : Store) (name phone : JVal) : Except String Contact × Store :=
  let name_clean := optStr (normalize_name name)
  if name_clean = [] then (.error nameRequiredMsg, st)
  else
    let phone_norm := optStr (normalize_phone phone)
    if phone_norm = [] then (.error phoneInvalidMsg, st)
    else if (lookupKey st.contacts phone_norm).isSome then (.error duplicateMsg, st)
    else
      let contact : Contact := ⟨name_clean, phone_norm⟩
      (.ok contact, ⟨dictSet st.contacts phone_norm contact,
                     st.contacts_list ++ [contact]⟩)

/-- The match test of `search` on one record: `q in name.lower() or q in phone`
(both fields are strings here, so the `isinstance` guards hold). -/
def searchMatch (q : Str) (c : Contact) : Bool :=
  decide (q <:+: pyLower c.name) || decide (q <:+: c.phone)

/-- `search` (lines 105-115): the generator's output, as the list it yields. -/
def search (st : Store) (query : JVal) : List Contact :=
  match query with
  | .jstr s =>
    let q := pyLower (pyStrip s)
    if q = [] then []
    else st.contacts_list.filter (searchMatch q)
  | _ => []

/-- `_remove_from_list` (lines 137-141): delete the first list element whose
`name` and `phone` both coincide with the given contact's. -/
def remove_from_list : List Contact → Contact → List Contact
  | [], _ => []
  | c :: rest, t => if c = t then rest else c :: remove_from_list rest t

/-- The comparison of the name-fallback loop of `delete`:
`val.get("name", "").lower() == target`. -/
def nameMatches (target : Str) (c : Contact) : Bool :=
  decide (pyLower c.name = target)

/-- The fallback loop of `delete` (lines 128-135): iterate over a snapshot of
`self.contacts.items()`, popping every entry whose name matches.  A failing
`pop` (`KeyError`, impossible while keys are unique) yields `none`. -/
def deleteNameLoop (target : Str) :
    List (Str × Contact) → Store → Bool → Option (Bool × Store)
  | [], st, removed => some (removed, st)
  | (k, v) :: rest, st, removed =>
    if nameMatches target v then
      match dictPop st.contacts k with
      | (some c, d) =>
          deleteNameLoop target rest ⟨d, remove_from_list st.contacts_list c⟩ true
      | (none, _) => none
    else deleteNameLoop target rest st removed

/-- `delete` (lines 117-135).  `none` models an uncaught exception. -/
def delete (st : Store) (v : JVal) : Option (Bool × Store) :=
  match v with
  | .jstr s =>
    if pyStrip s = [] then some (false, st)
    else
      let phone_key := optStr (normalize_phone (.jstr s))
      if phone_key ≠ [] ∧ (lookupKey st.contacts phone_key).isSome then
        match dictPop st.contacts phone_key with
        | (some c, d) => some (true, ⟨d, remove_from_list st.contacts_list c⟩)
        | (none, _) => none
      else
        deleteNameLoop (pyLower (pyStrip s)) st.contacts st false
  | _ => some (false, st)

/-- `name = normalize_name(raw.get("name", ""))`, as the string it denotes
under Python truthiness (`[]` for `None`). -/
def entryName (fs : List (String × JVal)) : Str :=
  optStr (normalize_name (jget fs "name" (.jstr [])))

/-- `phone_norm = normalize_phone(raw.get("phone", "")) if raw.get("phone")
else None`, as the string it denotes under Python truthiness. -/
def entryPhone (fs : List (String × JVal)) : Str :=
  optStr (if truthy (jget fs "phone" .jnull)
          then normalize_phone (jget fs "phone" (.jstr []))
          else none)

/-- `key = phone_norm if phone_norm else name.lower()`. -/
def entryKey (fs : List (String × JVal)) : Str :=
  if entryPhone fs ≠ [] then entryPhone fs else pyLower (entryName fs)

/-- `contact = {"name": name or "", "phone": phone_norm or ""}`. -/
def entryContact (fs : List (String × JVal)) : Contact :=
  ⟨entryName fs, entryPhone fs⟩

/-- One iteration of the `load` loop (lines 56-68): skip non-dict entries,
skip entries failing both normalizations, skip derived-key collisions,
otherwise append to the index and to the ordered list. -/
def loadEntry (st : Store) (raw : JVal) : Store :=
  match raw with
  | .jdict fs =>
    if entryName fs = [] ∧ entryPhone fs = [] then st
    else if (lookupKey st.contacts (entryKey fs)).isSome then st
    else ⟨st.contacts ++ [(entryKey fs, entryContact fs)],
          st.contacts_list ++ [entryContact fs]⟩
  | _ => st

/-- The `for raw in data` loop of `load`, in order. -/
def loadList : Store → List JVal → Store
  | st, [] => st
  | st, raw :: rest => loadList (loadEntry st raw) rest

/-- What `load` finds when opening and parsing its file. -/
inductive Source where
  | missing
  | unparseable
  | parsed (v : JVal)

/-- `load` (lines 42-68): the store is cleared first, so a missing or
unparseable file, or a top level that is not a list, yields the empty store. -/
def load : Source → Store
  | .missing => emptyStore
  | .unparseable => emptyStore
  | .parsed (.jlist xs) => loadList emptyStore xs
  | .parsed _ => emptyStore

/-- The JSON object `save` writes for one contact. -/
def contactJson (c : Contact) : JVal :=
  .jdict [("name", .jstr c.name), ("phone", .jstr c.phone)]

/-- `save` (lines 70-72): the serialized value written to the file
(`json.dump(self.contacts_list, ...)`). -/
def save (st : Store) : JVal :=
  .jlist (st.contacts_list.map contactJson)

/-- The derived key of a stored record: normalized phone if present, else the
lowercased name (spec section 3, "Key"). -/
def derivedKey (c : Contact) : Str :=
  if c.phone = [] then pyLower c.name else c.phone

/-- The store invariant: the ordered list mirrors the index's values, keys are
unique, and every entry is indexed under its record's derived key. -/
def StoreInv (st : Store) : Prop :=
  st.contacts_list = st.contacts.map Prod.snd ∧
  (st.contacts.map Prod.fst).Nodup ∧
  ∀ p ∈ st.contacts, p.1 = derivedKey p.2

/-- Store states reachable by the `ContactManager` operations (`__init__`
performs a `load`; `save` does not change the in-memory state). -/
inductive Reachable : Store → Prop where
  | empty : Reachable emptyStore
  | loadStep (src : Source) : Reachable (load src)
  | addStep (st : Store) (name phone : JVal) (c : Contact) (st' : Store) :
      Reachable st → add_contact st name phone = (.ok c, st') → Reachable st'
  | deleteStep (st : Store) (v : JVal) (b : Bool) (st' : Store) :
      Reachable st → delete st v = some (b, st') → Reachable st'

/-- A stored record that re-imports exactly as itself: its name is already
trimmed, an empty phone comes with a non-empty name, and a non-empty phone is
a fixed point of phone normalization.  This formalizes the spec's "no invalid
entries" side condition for the save/load round trip. -/
def goodContact (c : Contact) : Prop :=
  pyStrip c.name = c.name ∧
  (c.phone = [] → c.name ≠ []) ∧
  (c.phone ≠ [] → normalize_phone (.jstr c.phone) = some c.phone)

instance (c : Contact) : Decidable (goodContact c) := by
  unfold goodContact; infer_instance

/-- A store with no invalid entries: every record is re-importable and the
derived keys of the ordered list are pairwise distinct. -/
def GoodStore (st : Store) : Prop :=
  (∀ c ∈ st.contacts_list, goodContact c) ∧
  (st.contacts_list.map derivedKey).Nodup

instance (st : Store) : Decidable (GoodStore st) := by
  unfold GoodStore; infer_instance

/-- The record predicate asserted by the spec sentence behind C6: the name
contains the query case-insensitively, or the phone contains the query's
digits as a substring. -/
def specSearchMatch (q : Str) (c : Contact) : Bool :=
  decide (pyLower q <:+: pyLower c.name) || decide (digitsOf q <:+: c.phone)

/-- A store holding one record whose phone is "1234567890" (used to separate
the code's `search` from the spec's digit-substring reading). -/
def digitPhoneStore : Store :=
  ⟨[("1234567890".data, ⟨"x".data, "1234567890".data⟩)],
   [⟨"x".data, "1234567890".data⟩]⟩

/-- The store after `add_contact("kam", "1111111111")` on an empty store. -/
def kamStore : Store :=
  (add_contact emptyStore (.jstr "kam".data) (.jstr "1111111111".data)).2

/-- A two-record store with no invalid entries. -/
def goodPairStore : Store :=
  ⟨[("9876543210".data, ⟨"Kamal".data, "9876543210".data⟩),
    ("a".data, ⟨"A".data, []⟩)],
   [⟨"Kamal".data, "9876543210".data⟩, ⟨"A".data, []⟩]⟩

/-! ### Helper lemmas about the dictionary model -/

theorem lookupKey_eq_none {d : List (Str × Contact)} {k : Str} :
    lookupKey d k = none ↔ k ∉ d.map Prod.fst := by
  induction d with
  | nil => simp [lookupKey]
  | cons p rest ih =>
    obtain ⟨k2, c2⟩ := p
    rw [List.map_cons, List.mem_cons]
    by_cases h : k2 = k
    · show (if k2 = k then some c2 else lookupKey rest k) = none ↔ _
      rw [if_pos h]
      constructor
      · intro hc; exact Option.noConfusion hc
      · intro hn; exact absurd (Or.inl h.symm) hn
    · show (if k2 = k then some c2 else lookupKey rest k) = none ↔ _
      rw [if_neg h, ih]
      constructor
      · intro hn hor
        cases hor with
        | inl he => exact h he.symm
        | inr hm => exact hn hm
      · exact fun hn hm => hn (Or.inr hm)

theorem dictSet_append {d : List (Str × Contact)} {k : Str} (c : Contact)
    (h : k ∉ d.map Prod.fst) : dictSet d k c = d ++ [(k, c)] := by
  induction d with
  | nil => rfl
  | cons p rest ih =>
    obtain ⟨k2, c2⟩ := p
    rw [List.map_cons, List.mem_cons, not_or] at h
    simp [dictSet, Ne.symm h.1, ih h.2]

theorem dictPop_split {d1 d2 : List (Str × Contact)} {k : Str} (c : Contact)
    (h : k ∉ d1.map Prod.fst) :
    dictPop (d1 ++ (k, c) :: d2) k = (some c, d1 ++ d2) := by
  induction d1 with
  | nil => simp [dictPop]
  | cons p rest ih =>
    obtain ⟨k2, c2⟩ := p
    rw [List.map_cons, List.mem_cons, not_or] at h
    simp [dictPop, Ne.symm h.1, ih h.2]

theorem lookupKey_split {d : List (Str × Contact)} {k : Str} {c : Contact}
    (h : lookupKey d k = some c) :
    ∃ d1 d2, d = d1 ++ (k, c) :: d2 ∧ k ∉ d1.map Prod.fst := by
  induction d with
  | nil => simp [lookupKey] at h
  | cons p rest ih =>
    obtain ⟨k2, c2⟩ := p
    by_cases hk : k2 = k
    · subst hk
      simp [lookupKey] at h
      exact ⟨[], rest, by simp [h], by simp⟩
    · rw [lookupKey, if_neg hk] at h
      obtain ⟨d1, d2, hd, hmem⟩ := ih h
      exact ⟨(k2, c2) :: d1, d2, by simp [hd], by simp [hmem, Ne.symm hk]⟩

theorem remove_from_list_append {l1 l2 : List Contact} {c : Contact}
    (h : c ∉ l1) : remove_from_list (l1 ++ c :: l2) c = l1 ++ l2 := by
  induction l1 with
  | nil => simp [remove_from_list]
  | cons x rest ih =>
    rw [List.mem_cons, not_or] at h
    simp [remove_from_list, Ne.symm h.1, ih h.2]

/-- C1: phone normalization rejects non-strings; after stripping non-digits,
exactly 10 digits are returned as-is, 11 digits with a leading '0' drop it,
12 or more digits keep the last 10 (the suffix test being tautologically
true), and in every other case (in particular fewer than 10 digits, or 11
digits not starting with '0') the result is `none`. -/
theorem normalize_phone_cases :
    (∀ v : JVal, (∀ s, v ≠ .jstr s) → normalize_phone v = none) ∧
    (∀ s : Str,
      ((digitsOf s).length = 10 → normalize_phone (.jstr s) = some (digitsOf s)) ∧
      ((digitsOf s).length = 11 → (digitsOf s).head? = some '0' →
        normalize_phone (.jstr s) = some ((digitsOf s).drop 1)) ∧
      (12 ≤ (digitsOf s).length →
        normalize_phone (.jstr s) = some (lastN 10 (digitsOf s))) ∧
      ((digitsOf s).length < 10 → normalize_phone (.jstr s) = none) ∧
      ((digitsOf s).length = 11 → (digitsOf s).head? ≠ some '0' →
        normalize_phone (.jstr s) = none)) := by
  constructor
  · intro v h
    cases v with
    | jstr s => exact absurd rfl (h s)
    | jnull => rfl
    | jbool b => rfl
    | jnum n => rfl
    | jlist xs => rfl
    | jdict fs => rfl
  · intro s
    refine ⟨fun h10 => ?_, fun h11 h0 => ?_, fun h12 => ?_, fun hlt => ?_,
      fun h11 h0 => ?_⟩
    · simp [normalize_phone, h10]
    · simp [normalize_phone, h11, h0]
    · have h1 : ¬ (digitsOf s).length = 10 := by omega
      have h2 : ¬ ((digitsOf s).length = 11 ∧ (digitsOf s).head? = some '0') := by
        rintro ⟨h, _⟩; omega
      have h3 : lastN 10 (digitsOf s) <:+ digitsOf s := List.drop_suffix _ _
      have h4 : (lastN 10 (digitsOf s)).length = 10 := by
        simp only [lastN, List.length_drop]; omega
      simp [normalize_phone, h1, h2, h12, h3, h4]
    · have h1 : ¬ (digitsOf s).length = 10 := by omega
      have h2 : ¬ ((digitsOf s).length = 11 ∧ (digitsOf s).head? = some '0') := by
        rintro ⟨h, _⟩; omega
      have h3 : ¬ (12 ≤ (digitsOf s).length ∧
          lastN 10 (digitsOf s) <:+ digitsOf s) := by
        rintro ⟨h, _⟩; omega
      simp [normalize_phone, h1, h2, h3]
    · have h1 : ¬ (digitsOf s).length = 10 := by omega
      have h2 : ¬ ((digitsOf s).length = 11 ∧ (digitsOf s).head? = some '0') := by
        rintro ⟨_, h⟩; exact h0 h
      have h3 : ¬ (12 ≤ (digitsOf s).length ∧
          lastN 10 (digitsOf s) <:+ digitsOf s) := by
        rintro ⟨h, _⟩; omega
      simp [normalize_phone, h1, h2, h3]

/-- Witness for C1: one concrete input per branch. -/
theorem normalize_phone_cases_witness :
    normalize_phone (.jstr "98765-43210".data) = some "9876543210".data ∧
    normalize_phone (.jstr "09876543210".data) = some "9876543210".data ∧
    normalize_phone (.jstr "+91 98765 43210".data) = some "9876543210".data ∧
    normalize_phone (.jstr "98-76".data) = none ∧
    normalize_phone (.jstr "19876543210".data) = none ∧
    normalize_phone (.jnum 42) = none := by
  refine ⟨?_, ?_, ?_, ?_, ?_, ?_⟩
  · exact ((normalize_phone_cases.2 _).1 (by decide)).trans (by decide)
  · exact ((normalize_phone_cases.2 _).2.1 (by decide) (by decide)).trans (by decide)
  · exact ((normalize_phone_cases.2 _).2.2.1 (by decide)).trans (by decide)
  · exact (normalize_phone_cases.2 _).2.2.2.1 (by decide)
  · exact (normalize_phone_cases.2 _).2.2.2.2 (by decide) (by decide)
  · exact normalize_phone_cases.1 (.jnum 42) (fun s h => JVal.noConfusion h)

/-- C2: `add` fails (with the store unchanged) with the validation error for
an unnormalizable name or phone, with the duplicate error — a message distinct
from both validation messages — when the normalized-phone key is already
present, and otherwise appends the new record at the end of both the index
and the ordered list and returns it. -/
theorem add_contact_spec (st : Store) (name phone : JVal) :
    (∀ e, (add_contact st name phone).1 = .error e →
      (add_contact st name phone).2 = st) ∧
    (optStr (normalize_name name) = [] →
      add_contact st name phone = (.error nameRequiredMsg, st)) ∧
    (optStr (normalize_name name) ≠ [] → optStr (normalize_phone phone) = [] →
      add_contact st name phone = (.error phoneInvalidMsg, st)) ∧
    (optStr (normalize_name name) ≠ [] → optStr (normalize_phone phone) ≠ [] →
      (lookupKey st.contacts (optStr (normalize_phone phone))).isSome →
      add_contact st name phone = (.error duplicateMsg, st)) ∧
    (optStr (normalize_name name) ≠ [] → optStr (normalize_phone phone) ≠ [] →
      lookupKey st.contacts (optStr (normalize_phone phone)) = none →
      add_contact st name phone =
        (.ok ⟨optStr (normalize_name name), optStr (normalize_phone phone)⟩,
         ⟨st.contacts ++ [(optStr (normalize_phone phone),
             ⟨optStr (normalize_name name), optStr (normalize_phone phone)⟩)],
          st.contacts_list ++
            [⟨optStr (normalize_name name), optStr (normalize_phone phone)⟩]⟩)) ∧
    (duplicateMsg ≠ nameRequiredMsg ∧ duplicateMsg ≠ phoneInvalidMsg) := by
  refine ⟨?_, ?_, ?_, ?_, ?_, by decide, by decide⟩
  · intro e he
    by_cases h1 : optStr (normalize_name name) = []
    · simp [add_contact, h1]
    · by_cases h2 : optStr (normalize_phone phone) = []
      · simp [add_contact, h1, h2]
      · by_cases h3 : (lookupKey st.contacts (optStr (normalize_phone phone))).isSome
        · simp [add_contact, h1, h2, h3]
        · rw [Bool.not_eq_true] at h3
          simp [add_contact, h1, h2, h3] at he
  · intro h1
    simp [add_contact, h1]
  · intro h1 h2
    simp [add_contact, h1, h2]
  · intro h1 h2 h3
    simp [add_contact, h1, h2, h3]
  · intro h1 h2 h3
    have h4 : (lookupKey st.contacts (optStr (normalize_phone phone))).isSome
        = false := by rw [h3]; rfl
    have h5 := dictSet_append (d := st.contacts)
      (⟨optStr (normalize_name name), optStr (normalize_phone phone)⟩ : Contact)
      (lookupKey_eq_none.mp h3)
    simp [add_contact, h1, h2, h4, h5]

/-- Witness for C2: a successful add on the empty store, through the theorem's
success clause. -/
theorem add_contact_spec_witness :
    add_contact emptyStore (.jstr "Kamal".data) (.jstr "98765-43210".data) =
      (.ok ⟨"Kamal".data, "9876543210".data⟩,
       ⟨[("9876543210".data, ⟨"Kamal".data, "9876543210".data⟩)],
        [⟨"Kamal".data, "9876543210".data⟩]⟩) := by
  have h := (add_contact_spec emptyStore (.jstr "Kamal".data)
      (.jstr "98765-43210".data)).2.2.2.2.1 (by decide) (by decide) rfl
  exact h.trans (by rfl)

/-- C4: `load` never fails: a missing or unparseable source, or a top level
that is not a list, yields the empty store; otherwise the entries are
imported in order, skipping non-dict entries, entries failing both
normalizations, and entries whose derived key is already loaded (first
occurrence wins); every kept entry is appended at the end. -/
theorem load_spec :
    load .missing = emptyStore ∧
    load .unparseable = emptyStore ∧
    (∀ v : JVal, (∀ xs, v ≠ .jlist xs) → load (.parsed v) = emptyStore) ∧
    (∀ xs, load (.parsed (.jlist xs)) = loadList emptyStore xs) ∧
    (∀ st, loadList st [] = st) ∧
    (∀ st raw rest, loadList st (raw :: rest) = loadList (loadEntry st raw) rest) ∧
    (∀ st raw, (∀ fs, raw ≠ .jdict fs) → loadEntry st raw = st) ∧
    (∀ st fs, entryName fs = [] → entryPhone fs = [] →
      loadEntry st (.jdict fs) = st) ∧
    (∀ st fs, ¬(entryName fs = [] ∧ entryPhone fs = []) →
      (lookupKey st.contacts (entryKey fs)).isSome →
      loadEntry st (.jdict fs) = st) ∧
    (∀ st fs, ¬(entryName fs = [] ∧ entryPhone fs = []) →
      lookupKey st.contacts (entryKey fs) = none →
      loadEntry st (.jdict fs) =
        ⟨st.contacts ++ [(entryKey fs, entryContact fs)],
         st.contacts_list ++ [entryContact fs]⟩) := by
  refine ⟨rfl, rfl, ?_, fun xs => rfl, fun st => rfl, fun st raw rest => rfl,
    ?_, ?_, ?_, ?_⟩
  · intro v h
    cases v with
    | jlist xs => exact absurd rfl (h xs)
    | jnull => rfl
    | jbool b => rfl
    | jnum n => rfl
    | jstr s => rfl
    | jdict fs => rfl
  · intro st raw h
    cases raw with
    | jdict fs => exact absurd rfl (h fs)
    | jnull => rfl
    | jbool b => rfl
    | jnum n => rfl
    | jstr s => rfl
    | jlist xs => rfl
  · intro st fs h1 h2
    simp [loadEntry, h1, h2]
  · intro st fs h1 h2
    simp [loadEntry, h1, h2]
  · intro st fs h1 h2
    have h3 : (lookupKey st.contacts (entryKey fs)).isSome = false := by
      rw [h2]; rfl
    simp [loadEntry, h1, h3]

/-- Witness for C4: the clauses with hypotheses, applied at concrete inputs. -/
theorem load_spec_witness :
    load (.parsed (.jstr "oops".data)) = emptyStore ∧
    loadEntry emptyStore (.jnum 7) = emptyStore ∧
    loadEntry emptyStore (.jdict []) = emptyStore ∧
    loadEntry emptyStore (.jdict [("name", .jstr "A".data)]) =
      ⟨[("a".data, ⟨"A".data, []⟩)], [⟨"A".data, []⟩]⟩ := by
  refine ⟨?_, ?_, ?_, ?_⟩
  · exact load_spec.2.2.1 _ (fun xs h => JVal.noConfusion h)
  · exact load_spec.2.2.2.2.2.2.1 emptyStore _ (fun fs h => JVal.noConfusion h)
  · exact load_spec.2.2.2.2.2.2.2.1 emptyStore [] (by decide) (by decide)
  · exact (load_spec.2.2.2.2.2.2.2.2.2 emptyStore [("name", .jstr "A".data)]
      (by decide) rfl).trans (by rfl)

/-- C8: loading a source holding the single entry
`[{"name": "A", "phone": "123"}]` (invalid phone, valid name) yields exactly
one record `{name: "A", phone: ""}`, stored under the lowercased name `"a"`
as its derived key. -/
theorem load_invalid_phone_scenario :
    load (.parsed (.jlist [.jdict [("name", .jstr "A".data),
        ("phone", .jstr "123".data)]])) =
      ⟨[("a".data, ⟨"A".data, []⟩)], [⟨"A".data, []⟩]⟩ ∧
    "a".data = pyLower (pyStrip "A".data) := by decide

theorem loadEntry_contactJson (st : Store) (c : Contact) (hc : goodContact c)
    (habs : lookupKey st.contacts (derivedKey c) = none) :
    loadEntry st (contactJson c) =
      ⟨st.contacts ++ [(derivedKey c, c)], st.contacts_list ++ [c]⟩ := by
  have hg1 : jget [("name", JVal.jstr c.name), ("phone", JVal.jstr c.phone)]
      "name" (.jstr []) = .jstr c.name := rfl
  have hg2 : jget [("name", JVal.jstr c.name), ("phone", JVal.jstr c.phone)]
      "phone" .jnull = .jstr c.phone := rfl
  have hg3 : jget [("name", JVal.jstr c.name), ("phone", JVal.jstr c.phone)]
      "phone" (.jstr []) = .jstr c.phone := rfl
  have hnn : normalize_name (.jstr c.name)
      = if c.name = [] then none else some c.name := by
    simp only [normalize_name]
    rw [hc.1]
  have hname : entryName [("name", JVal.jstr c.name), ("phone", JVal.jstr c.phone)]
      = c.name := by
    rw [entryName, hg1, hnn]
    by_cases h : c.name = []
    · rw [if_pos h, h]; rfl
    · rw [if_neg h]; rfl
  have hphone : entryPhone [("name", JVal.jstr c.name), ("phone", JVal.jstr c.phone)]
      = c.phone := by
    rw [entryPhone, hg2, hg3]
    by_cases h : c.phone = []
    · rw [h]; rfl
    · simp [truthy, h, optStr, hc.2.2 h]
  have hkey : entryKey [("name", JVal.jstr c.name), ("phone", JVal.jstr c.phone)]
      = derivedKey c := by
    rw [entryKey, hname, hphone, derivedKey]
    by_cases h : c.phone = [] <;> simp [h]
  have hcon : entryContact [("name", JVal.jstr c.name), ("phone", JVal.jstr c.phone)]
      = c := by
    rw [entryContact, hname, hphone]
  have hguard : ¬(entryName [("name", JVal.jstr c.name), ("phone", JVal.jstr c.phone)]
      = [] ∧ entryPhone [("name", JVal.jstr c.name), ("phone", JVal.jstr c.phone)]
      = []) := by
    rw [hname, hphone]
    rintro ⟨hn, hp⟩
    exact hc.2.1 hp hn
  show loadEntry st (.jdict [("name", JVal.jstr c.name), ("phone", JVal.jstr c.phone)]) = _
  simp only [loadEntry]
  rw [if_neg hguard, hkey, hcon, habs]
  rfl

theorem load_save_aux :
    ∀ (cs : List Contact) (st : Store),
    (∀ c ∈ cs, goodContact c) →
    (st.contacts.map Prod.fst ++ cs.map derivedKey).Nodup →
    loadList st (cs.map contactJson) =
      ⟨st.contacts ++ cs.map (fun c => (derivedKey c, c)),
       st.contacts_list ++ cs⟩ := by
  intro cs
  induction cs with
  | nil =>
    intro st h1 h2
    simp [loadList]
  | cons c rest ih =>
    intro st h1 h2
    have hgood : goodContact c := h1 c (List.mem_cons_self c rest)
    have hnotmem : derivedKey c ∉ st.contacts.map Prod.fst := by
      intro hmem
      exact (List.disjoint_of_nodup_append h2) hmem (by simp)
    rw [List.map_cons, loadList,
        loadEntry_contactJson st c hgood (lookupKey_eq_none.mpr hnotmem)]
    rw [ih ⟨st.contacts ++ [(derivedKey c, c)], st.contacts_list ++ [c]⟩
        (fun x hx => h1 x (List.mem_cons_of_mem c hx)) ?_]
    · simp
    · show ((st.contacts ++ [(derivedKey c, c)]).map Prod.fst
        ++ rest.map derivedKey).Nodup
      rw [List.map_append, List.append_assoc]
      simpa using h2

/-- C5: for a store with no invalid entries (every record re-importable and
derived keys pairwise distinct), saving and then loading yields the same
records, as an unordered collection of (name, phone) pairs. -/
theorem save_load_roundtrip (st : Store) (h : GoodStore st) :
    List.Perm ((load (.parsed (save st))).contacts_list.map fun c => (c.name, c.phone))
      (st.contacts_list.map fun c => (c.name, c.phone)) := by
  have haux := load_save_aux st.contacts_list emptyStore h.1 (by simpa using h.2)
  have hload : load (.parsed (save st))
      = loadList emptyStore (st.contacts_list.map contactJson) := rfl
  rw [hload, haux]
  simp [emptyStore]

/-- Witness for C5: the round trip at a concrete two-record store. -/
theorem save_load_roundtrip_witness :
    GoodStore goodPairStore ∧
    (List.Perm ((load (.parsed (save goodPairStore))).contacts_list.map
        fun c => (c.name, c.phone))
      (goodPairStore.contacts_list.map fun c => (c.name, c.phone))) :=
  ⟨by decide, save_load_roundtrip goodPairStore (by decide)⟩

theorem add_ok {st : Store} {name phone : JVal} {c : Contact} {st' : Store}
    (h : add_contact st name phone = (.ok c, st')) :
    optStr (normalize_name name) ≠ [] ∧ optStr (normalize_phone phone) ≠ [] ∧
    lookupKey st.contacts (optStr (normalize_phone phone)) = none ∧
    c = ⟨optStr (normalize_name name), optStr (normalize_phone phone)⟩ ∧
    st' = ⟨st.contacts ++ [(optStr (normalize_phone phone), c)],
           st.contacts_list ++ [c]⟩ := by
  by_cases h1 : optStr (normalize_name name) = []
  · simp [add_contact, h1] at h
  · by_cases h2 : optStr (normalize_phone phone) = []
    · simp [add_contact, h1, h2] at h
    · by_cases h3 : (lookupKey st.contacts (optStr (normalize_phone phone))).isSome
      · simp [add_contact, h1, h2, h3] at h
      · rw [Bool.not_eq_true] at h3
        have h3' : lookupKey st.contacts (optStr (normalize_phone phone)) = none :=
          Option.not_isSome_iff_eq_none.mp (by rw [h3]; exact Bool.false_ne_true)
        have h4 := dictSet_append (d := st.contacts)
          (⟨optStr (normalize_name name), optStr (normalize_phone phone)⟩ : Contact)
          (lookupKey_eq_none.mp h3')
        simp only [add_contact, if_neg h1, if_neg h2, h3, Bool.false_eq_true,
          if_false, h4, Prod.mk.injEq, Except.ok.injEq] at h
        obtain ⟨hc, hst⟩ := h
        subst hc
        exact ⟨h1, h2, h3', rfl, hst.symm⟩

theorem optStr_normalize_name (s : Str) :
    optStr (normalize_name (.jstr s)) = pyStrip s := by
  simp only [normalize_name, optStr]
  by_cases h : pyStrip s = []
  · rw [if_pos h, h]; rfl
  · rw [if_neg h]; rfl

/-- C6 (amended): search with a string query returns, in store order, exactly
the records whose lowered name or whose phone contains the trimmed lowered
query as a literal substring (the query is not reduced to its digits for the
phone comparison); an empty or whitespace-only query, or a non-string query,
yields the empty sequence. -/
theorem search_spec (st : Store) :
    (∀ s : Str, pyStrip s = [] → search st (.jstr s) = []) ∧
    (∀ s : Str, pyStrip s ≠ [] →
      search st (.jstr s) =
        st.contacts_list.filter (searchMatch (pyLower (pyStrip s)))) ∧
    (∀ v : JVal, (∀ s, v ≠ .jstr s) → search st v = []) := by
  refine ⟨?_, ?_, ?_⟩
  · intro s h
    simp [search, h, pyLower]
  · intro s h
    have hq : ¬ pyLower (pyStrip s) = [] := fun hh =>
      h (by simpa [pyLower] using hh)
    simp [search, hq]
  · intro v h
    cases v with
    | jstr s => exact absurd rfl (h s)
    | jnull => rfl
    | jbool b => rfl
    | jnum n => rfl
    | jlist xs => rfl
    | jdict fs => rfl

/-- Witness for C6 (amended): the three clauses at concrete inputs. -/
theorem search_spec_witness :
    search kamStore (.jstr "   ".data) = [] ∧
    search kamStore (.jstr " KAM ".data) = [⟨"kam".data, "1111111111".data⟩] ∧
    search kamStore (.jbool true) = [] := by
  refine ⟨?_, ?_, ?_⟩
  · exact (search_spec kamStore).1 _ (by decide)
  · exact ((search_spec kamStore).2.1 " KAM ".data (by decide)).trans (by decide)
  · exact (search_spec kamStore).2.2 _ (fun s h => JVal.noConfusion h)

/-- Counterexample to C6 as stated: on a store holding one record with phone
"1234567890", the query "12-34" matches nothing in the code (the query is
compared literally against the phone), while the claim's predicate — the
query's digits "1234" as a phone substring — selects the record. -/
theorem search_claim_counterexample :
    search digitPhoneStore (.jstr "12-34".data) ≠
      digitPhoneStore.contacts_list.filter (specSearchMatch "12-34".data) := by
  decide

/-- C7 (amended): when no record of the prior store matches the added name as
a search query (search(name) is empty before the add), a successful
add(name, phone) followed by search(name) returns exactly one record — the
new one — and its name is the trimmed added name. -/
theorem add_then_search (st : Store) (s : Str) (phone : JVal)
    (c : Contact) (st' : Store)
    (hadd : add_contact st (.jstr s) phone = (.ok c, st'))
    (hprior : search st (.jstr s) = []) :
    search st' (.jstr s) = [c] ∧ c.name = pyStrip s := by
  obtain ⟨h1, h2, h3, hc, hst⟩ := add_ok hadd
  have hnc := optStr_normalize_name s
  have hstrip : pyStrip s ≠ [] := by rw [hnc] at h1; exact h1
  have hq : ¬ pyLower (pyStrip s) = [] := fun hh =>
    hstrip (by simpa [pyLower] using hh)
  have hcname : c.name = pyStrip s := by rw [hc]; exact hnc
  constructor
  · rw [hst]
    simp only [search]
    rw [if_neg hq]
    show (st.contacts_list ++ [c]).filter (searchMatch (pyLower (pyStrip s))) = [c]
    rw [List.filter_append]
    have hpriorf : st.contacts_list.filter (searchMatch (pyLower (pyStrip s)))
        = [] := by
      have hp := hprior
      simp only [search] at hp
      rw [if_neg hq] at hp
      exact hp
    have hmatch : searchMatch (pyLower (pyStrip s)) c = true := by
      have hinf : pyLower (pyStrip s) <:+: pyLower c.name := by
        rw [hcname]
      simp [searchMatch, hinf]
    rw [hpriorf]
    simp [hmatch]
  · exact hcname

/-- Witness for C7 (amended): an add on the empty store. -/
theorem add_then_search_witness :
    search (add_contact emptyStore (.jstr " Bob ".data)
        (.jstr "5551234567".data)).2 (.jstr " Bob ".data)
      = [⟨"Bob".data, "5551234567".data⟩] ∧
    ("Bob".data : Str) = pyStrip " Bob ".data :=
  ⟨(add_then_search emptyStore " Bob ".data (.jstr "5551234567".data)
      ⟨"Bob".data, "5551234567".data⟩ _ (by rfl) (by rfl)).1, by decide⟩

/-- Counterexample to C7 as stated: after add("kam","1111111111"), the add
of ("ka","2222222222") succeeds, yet search("ka") then returns two records,
not exactly one. -/
theorem add_search_counterexample :
    (add_contact kamStore (.jstr "ka".data) (.jstr "2222222222".data)).1
      = .ok ⟨"ka".data, "2222222222".data⟩ ∧
    (search (add_contact kamStore (.jstr "ka".data)
        (.jstr "2222222222".data)).2 (.jstr "ka".data)).length = 2 :=
  ⟨by rfl, by decide⟩

theorem snd_not_mem_of_key {kept : List (Str × Contact)} {k : Str} {v : Contact}
    (hk : k = derivedKey v) (hkeys : ∀ p ∈ kept, p.1 = derivedKey p.2)
    (hnot : k ∉ kept.map Prod.fst) : v ∉ kept.map Prod.snd := by
  intro hmem
  rw [List.mem_map] at hmem
  obtain ⟨p, hp, hpv⟩ := hmem
  apply hnot
  rw [List.mem_map]
  exact ⟨p, hp, by rw [hkeys p hp, hpv, ← hk]⟩

theorem deleteNameLoop_cons_true {target : Str} {k : Str} {v : Contact}
    {rest : List (Str × Contact)} {st : Store} {removed : Bool} {c : Contact}
    {d : List (Str × Contact)} (hm : nameMatches target v = true)
    (hpop : dictPop st.contacts k = (some c, d)) :
    deleteNameLoop target ((k, v) :: rest) st removed
      = deleteNameLoop target rest ⟨d, remove_from_list st.contacts_list c⟩ true := by
  simp only [deleteNameLoop, hm, if_true, hpop]

theorem deleteNameLoop_cons_false {target : Str} {k : Str} {v : Contact}
    {rest : List (Str × Contact)} {st : Store} {removed : Bool}
    (hm : nameMatches target v = false) :
    deleteNameLoop target ((k, v) :: rest) st removed
      = deleteNameLoop target rest st removed := by
  simp only [deleteNameLoop, hm, Bool.false_eq_true, if_false]

theorem deleteNameLoop_spec (target : Str) :
    ∀ (rest kept : List (Str × Contact)) (removed : Bool),
    (∀ p ∈ kept, nameMatches target p.2 = false) →
    ((kept ++ rest).map Prod.fst).Nodup →
    (∀ p ∈ kept ++ rest, p.1 = derivedKey p.2) →
    deleteNameLoop target rest
        ⟨kept ++ rest, (kept ++ rest).map Prod.snd⟩ removed
      = some (removed || rest.any (fun p => nameMatches target p.2),
          ⟨kept ++ rest.filter (fun p => !nameMatches target p.2),
           (kept ++ rest.filter (fun p => !nameMatches target p.2)).map
             Prod.snd⟩) := by
  intro rest
  induction rest with
  | nil =>
    intro kept removed hk hn hd
    simp [deleteNameLoop]
  | cons p rest ih =>
    obtain ⟨k, v⟩ := p
    intro kept removed hk hn hd
    by_cases hm : nameMatches target v = true
    · have hknotkept : k ∉ kept.map Prod.fst := by
        rw [List.map_append] at hn
        intro hmem
        exact (List.disjoint_of_nodup_append hn) hmem
          (by rw [List.map_cons]; exact List.mem_cons_self _ _)
      have hpop : dictPop (kept ++ (k, v) :: rest) k = (some v, kept ++ rest) :=
        dictPop_split v hknotkept
      have hvd : k = derivedKey v :=
        hd (k, v) (List.mem_append_right _ (List.mem_cons_self _ _))
      have hvnot : v ∉ kept.map Prod.snd :=
        snd_not_mem_of_key hvd
          (fun q hq => hd q (List.mem_append_left _ hq)) hknotkept
      have hrem : remove_from_list ((kept ++ (k, v) :: rest).map Prod.snd) v
          = (kept ++ rest).map Prod.snd := by
        rw [List.map_append, List.map_cons, remove_from_list_append hvnot,
            List.map_append]
      rw [deleteNameLoop_cons_true hm hpop]
      show deleteNameLoop target rest
          ⟨kept ++ rest,
           remove_from_list ((kept ++ (k, v) :: rest).map Prod.snd) v⟩ true = _
      rw [hrem]
      rw [ih kept true hk ?nodup2 ?keys2]
      case nodup2 =>
        have hsub : List.Sublist (kept ++ rest) (kept ++ (k, v) :: rest) :=
          List.Sublist.append_left (List.sublist_cons_self _ _) kept
        exact List.Nodup.sublist (hsub.map Prod.fst) hn
      case keys2 =>
        intro q hq
        rw [List.mem_append] at hq
        cases hq with
        | inl hql => exact hd q (List.mem_append_left _ hql)
        | inr hqr =>
          exact hd q (List.mem_append_right _ (List.mem_cons_of_mem _ hqr))
      have hfilter : ((k, v) :: rest).filter (fun p => !nameMatches target p.2)
          = rest.filter (fun p => !nameMatches target p.2) := by
        simp [List.filter_cons, hm]
      rw [hfilter]
      simp [List.any_cons, hm]
    · rw [Bool.not_eq_true] at hm
      rw [deleteNameLoop_cons_false hm]
      have hassoc : kept ++ (k, v) :: rest = (kept ++ [(k, v)]) ++ rest := by
        simp
      rw [hassoc]
      rw [ih (kept ++ [(k, v)]) removed ?kept2 ?nodup2 ?keys2]
      case kept2 =>
        intro q hq
        rw [List.mem_append] at hq
        cases hq with
        | inl hql => exact hk q hql
        | inr hqr =>
          rw [List.mem_singleton] at hqr
          rw [hqr]
          exact hm
      case nodup2 =>
        rw [← hassoc]
        exact hn
      case keys2 =>
        intro q hq
        rw [← hassoc] at hq
        exact hd q hq
      have hfilter : ((k, v) :: rest).filter (fun p => !nameMatches target p.2)
          = (k, v) :: rest.filter (fun p => !nameMatches target p.2) := by
        simp [List.filter_cons, hm]
      rw [hfilter]
      simp [List.any_cons, hm, List.append_assoc]

theorem deleteByName_spec {st : Store} (hi : StoreInv st) (target : Str) :
    deleteNameLoop target st.contacts st false
      = some (st.contacts.any (fun p => nameMatches target p.2),
          ⟨st.contacts.filter (fun p => !nameMatches target p.2),
           (st.contacts.filter (fun p => !nameMatches target p.2)).map
             Prod.snd⟩) := by
  obtain ⟨contacts, clist⟩ := st
  obtain ⟨h1, h2, h3⟩ := hi
  dsimp only at h1 h2 h3 ⊢
  subst h1
  exact deleteNameLoop_spec target contacts [] false
    (fun p hp => absurd hp (List.not_mem_nil p)) (by simpa using h2)
    (fun p hp => h3 p (by simpa using hp))

theorem delete_char {st : Store} (hi : StoreInv st) (s : Str) :
    (pyStrip s = [] → delete st (.jstr s) = some (false, st)) ∧
    (pyStrip s ≠ [] →
      ∀ c, lookupKey st.contacts (optStr (normalize_phone (.jstr s))) = some c →
      optStr (normalize_phone (.jstr s)) ≠ [] →
      ∃ d1 d2, st.contacts = d1 ++ (optStr (normalize_phone (.jstr s)), c) :: d2 ∧
        remove_from_list st.contacts_list c = (d1 ++ d2).map Prod.snd ∧
        delete st (.jstr s)
          = some (true, ⟨d1 ++ d2, (d1 ++ d2).map Prod.snd⟩)) ∧
    (pyStrip s ≠ [] →
      ¬(optStr (normalize_phone (.jstr s)) ≠ [] ∧
        (lookupKey st.contacts (optStr (normalize_phone (.jstr s)))).isSome) →
      delete st (.jstr s)
        = some (st.contacts.any (fun p => nameMatches (pyLower (pyStrip s)) p.2),
            ⟨st.contacts.filter (fun p => !nameMatches (pyLower (pyStrip s)) p.2),
             (st.contacts.filter
               (fun p => !nameMatches (pyLower (pyStrip s)) p.2)).map
               Prod.snd⟩)) := by
  refine ⟨fun h => by simp [delete, h], ?_, ?_⟩
  · intro h c hc hpk
    obtain ⟨d1, d2, hsplit, hnotd1⟩ := lookupKey_split hc
    have hguard : optStr (normalize_phone (.jstr s)) ≠ [] ∧
        (lookupKey st.contacts (optStr (normalize_phone (.jstr s)))).isSome :=
      ⟨hpk, by rw [hc]; rfl⟩
    have hpop : dictPop st.contacts (optStr (normalize_phone (.jstr s)))
        = (some c, d1 ++ d2) := by
      rw [hsplit]; exact dictPop_split c hnotd1
    have hkc : optStr (normalize_phone (.jstr s)) = derivedKey c :=
      hi.2.2 (optStr (normalize_phone (.jstr s)), c)
        (by rw [hsplit]; exact List.mem_append_right _ (List.mem_cons_self _ _))
    have hcnot : c ∉ d1.map Prod.snd :=
      snd_not_mem_of_key hkc
        (fun q hq => hi.2.2 q (by rw [hsplit]; exact List.mem_append_left _ hq))
        hnotd1
    have hrem : remove_from_list st.contacts_list c = (d1 ++ d2).map Prod.snd := by
      rw [hi.1, hsplit, List.map_append, List.map_cons,
          remove_from_list_append hcnot, List.map_append]
    refine ⟨d1, d2, hsplit, hrem, ?_⟩
    simp only [delete]
    rw [if_neg h, if_pos hguard, hpop]
    show some (true, (⟨d1 ++ d2, remove_from_list st.contacts_list c⟩ : Store))
      = some (true, (⟨d1 ++ d2, (d1 ++ d2).map Prod.snd⟩ : Store))
    rw [hrem]
  · intro h hng
    simp only [delete]
    rw [if_neg h, if_neg hng]
    exact deleteByName_spec hi (pyLower (pyStrip s))

theorem delete_inv {st : Store} {v : JVal} {b : Bool} {st' : Store}
    (hi : StoreInv st) (h : delete st v = some (b, st')) : StoreInv st' := by
  cases v with
  | jstr s =>
    by_cases hs : pyStrip s = []
    · rw [(delete_char hi s).1 hs] at h
      rw [Option.some.injEq, Prod.mk.injEq] at h
      rw [← h.2]
      exact hi
    · by_cases hg : optStr (normalize_phone (.jstr s)) ≠ [] ∧
          (lookupKey st.contacts (optStr (normalize_phone (.jstr s)))).isSome
      · obtain ⟨c, hc⟩ := Option.isSome_iff_exists.mp hg.2
        obtain ⟨d1, d2, hsplit, hrem, hdel⟩ := (delete_char hi s).2.1 hs c hc hg.1
        rw [hdel, Option.some.injEq, Prod.mk.injEq] at h
        rw [← h.2]
        have hsub : List.Sublist (d1 ++ d2) st.contacts := by
          rw [hsplit]
          exact List.Sublist.append_left (List.sublist_cons_self _ _) d1
        exact ⟨rfl, List.Nodup.sublist (hsub.map Prod.fst) hi.2.1,
          fun p hp => hi.2.2 p (hsub.subset hp)⟩
      · rw [(delete_char hi s).2.2 hs hg, Option.some.injEq, Prod.mk.injEq] at h
        rw [← h.2]
        have hsub : List.Sublist
            (st.contacts.filter (fun p => !nameMatches (pyLower (pyStrip s)) p.2))
            st.contacts := List.filter_sublist _
        exact ⟨rfl, List.Nodup.sublist (hsub.map Prod.fst) hi.2.1,
          fun p hp => hi.2.2 p (List.mem_of_mem_filter hp)⟩
  | jnull =>
    have h2 : some (false, st) = some (b, st') := h
    rw [Option.some.injEq, Prod.mk.injEq] at h2
    rw [← h2.2]; exact hi
  | jbool b2 =>
    have h2 : some (false, st) = some (b, st') := h
    rw [Option.some.injEq, Prod.mk.injEq] at h2
    rw [← h2.2]; exact hi
  | jnum n =>
    have h2 : some (false, st) = some (b, st') := h
    rw [Option.some.injEq, Prod.mk.injEq] at h2
    rw [← h2.2]; exact hi
  | jlist xs =>
    have h2 : some (false, st) = some (b, st') := h
    rw [Option.some.injEq, Prod.mk.injEq] at h2
    rw [← h2.2]; exact hi
  | jdict fs =>
    have h2 : some (false, st) = some (b, st') := h
    rw [Option.some.injEq, Prod.mk.injEq] at h2
    rw [← h2.2]; exact hi

theorem entryKey_derivedKey (fs : List (String × JVal)) :
    entryKey fs = derivedKey (entryContact fs) := by
  rw [entryKey, derivedKey]
  by_cases h : entryPhone fs = [] <;> simp [entryContact, h]

theorem emptyStore_inv : StoreInv emptyStore :=
  ⟨rfl, List.nodup_nil, fun p hp => absurd hp (List.not_mem_nil p)⟩

theorem loadEntry_inv {st : Store} (hi : StoreInv st) (raw : JVal) :
    StoreInv (loadEntry st raw) := by
  cases raw with
  | jdict fs =>
    by_cases h1 : entryName fs = [] ∧ entryPhone fs = []
    · rw [show loadEntry st (.jdict fs) = st by simp [loadEntry, h1]]
      exact hi
    · by_cases h2 : (lookupKey st.contacts (entryKey fs)).isSome
      · rw [show loadEntry st (.jdict fs) = st by simp [loadEntry, h1, h2]]
        exact hi
      · rw [Bool.not_eq_true] at h2
        have h2' : lookupKey st.contacts (entryKey fs) = none :=
          Option.not_isSome_iff_eq_none.mp (by rw [h2]; exact Bool.false_ne_true)
        rw [show loadEntry st (.jdict fs)
            = ⟨st.contacts ++ [(entryKey fs, entryContact fs)],
               st.contacts_list ++ [entryContact fs]⟩ by
          simp [loadEntry, h1, h2]]
        refine ⟨?_, ?_, ?_⟩
        · show st.contacts_list ++ [entryContact fs]
            = (st.contacts ++ [(entryKey fs, entryContact fs)]).map Prod.snd
          rw [List.map_append, hi.1]
          rfl
        · show ((st.contacts ++ [(entryKey fs, entryContact fs)]).map
            Prod.fst).Nodup
          rw [List.map_append, List.nodup_append]
          refine ⟨hi.2.1, List.nodup_singleton _, ?_⟩
          intro a ha hb
          rw [List.map_singleton, List.mem_singleton] at hb
          rw [hb] at ha
          exact (lookupKey_eq_none.mp h2') ha
        · intro p hp
          rw [List.mem_append] at hp
          cases hp with
          | inl hm => exact hi.2.2 p hm
          | inr hm =>
            rw [List.mem_singleton] at hm
            rw [hm]
            exact entryKey_derivedKey fs
  | jnull => exact hi
  | jbool b => exact hi
  | jnum n => exact hi
  | jstr s => exact hi
  | jlist xs => exact hi

theorem loadList_inv (xs : List JVal) :
    ∀ st, StoreInv st → StoreInv (loadList st xs) := by
  induction xs with
  | nil => intro st h; exact h
  | cons raw rest ih => intro st h; exact ih _ (loadEntry_inv h raw)

theorem load_inv (src : Source) : StoreInv (load src) := by
  cases src with
  | missing => exact emptyStore_inv
  | unparseable => exact emptyStore_inv
  | parsed v =>
    cases v with
    | jlist xs => exact loadList_inv xs emptyStore emptyStore_inv
    | jnull => exact emptyStore_inv
    | jbool b => exact emptyStore_inv
    | jnum n => exact emptyStore_inv
    | jstr s => exact emptyStore_inv
    | jdict fs => exact emptyStore_inv

theorem add_inv {st : Store} {name phone : JVal} {c : Contact} {st' : Store}
    (hi : StoreInv st) (h : add_contact st name phone = (.ok c, st')) :
    StoreInv st' := by
  obtain ⟨h1, h2, h3, hc, hst⟩ := add_ok h
  rw [hst]
  refine ⟨?_, ?_, ?_⟩
  · show st.contacts_list ++ [c]
      = (st.contacts ++ [(optStr (normalize_phone phone), c)]).map Prod.snd
    rw [List.map_append, hi.1]
    rfl
  · show ((st.contacts ++ [(optStr (normalize_phone phone), c)]).map
      Prod.fst).Nodup
    rw [List.map_append, List.nodup_append]
    refine ⟨hi.2.1, List.nodup_singleton _, ?_⟩
    intro a ha hb
    rw [List.map_singleton, List.mem_singleton] at hb
    rw [hb] at ha
    exact (lookupKey_eq_none.mp h3) ha
  · intro p hp
    rw [List.mem_append] at hp
    cases hp with
    | inl hm => exact hi.2.2 p hm
    | inr hm =>
      rw [List.mem_singleton] at hm
      rw [hm]
      show optStr (normalize_phone phone) = derivedKey c
      rw [hc, derivedKey]
      simp [h2]

theorem reachable_inv {st : Store} (h : Reachable st) : StoreInv st := by
  induction h with
  | empty => exact emptyStore_inv
  | loadStep src => exact load_inv src
  | addStep st name phone c st' hr hadd ih => exact add_inv ih hadd
  | deleteStep st v b st' hr hdel ih => exact delete_inv ih hdel

/-- C3: for every reachable store state and string identifier, `delete` never
fails; a whitespace-only identifier removes nothing and returns false; when
the identifier normalizes to a phone key present in the index, exactly that
one record is removed (the list shrinks by one) and true is returned;
otherwise every record whose lowered name equals the trimmed lowered
identifier is removed, and true is returned iff at least one record was
removed. -/
theorem delete_spec (st : Store) (hr : Reachable st) (s : Str) :
    (∃ r, delete st (.jstr s) = some r) ∧
    (pyStrip s = [] → delete st (.jstr s) = some (false, st)) ∧
    (∀ c, pyStrip s ≠ [] →
      lookupKey st.contacts (optStr (normalize_phone (.jstr s))) = some c →
      optStr (normalize_phone (.jstr s)) ≠ [] →
      ∃ st', delete st (.jstr s) = some (true, st') ∧
        st'.contacts_list = remove_from_list st.contacts_list c ∧
        c ∈ st.contacts_list ∧
        st'.contacts_list.length + 1 = st.contacts_list.length) ∧
    (pyStrip s ≠ [] →
      ¬(optStr (normalize_phone (.jstr s)) ≠ [] ∧
        (lookupKey st.contacts (optStr (normalize_phone (.jstr s)))).isSome) →
      ∃ b st', delete st (.jstr s) = some (b, st') ∧
        st'.contacts_list = st.contacts_list.filter
          (fun c => !nameMatches (pyLower (pyStrip s)) c) ∧
        (b = true ↔ ∃ c ∈ st.contacts_list,
          nameMatches (pyLower (pyStrip s)) c = true)) := by
  have hi := reachable_inv hr
  refine ⟨?_, (delete_char hi s).1, ?_, ?_⟩
  · by_cases hs : pyStrip s = []
    · exact ⟨(false, st), (delete_char hi s).1 hs⟩
    · by_cases hg : optStr (normalize_phone (.jstr s)) ≠ [] ∧
          (lookupKey st.contacts (optStr (normalize_phone (.jstr s)))).isSome
      · obtain ⟨c, hc⟩ := Option.isSome_iff_exists.mp hg.2
        obtain ⟨d1, d2, hsplit, hrem, hdel⟩ :=
          (delete_char hi s).2.1 hs c hc hg.1
        exact ⟨_, hdel⟩
      · exact ⟨_, (delete_char hi s).2.2 hs hg⟩
  · intro c hs hc hpk
    obtain ⟨d1, d2, hsplit, hrem, hdel⟩ := (delete_char hi s).2.1 hs c hc hpk
    refine ⟨⟨d1 ++ d2, (d1 ++ d2).map Prod.snd⟩, hdel, hrem.symm, ?_, ?_⟩
    · rw [hi.1, hsplit, List.map_append, List.map_cons]
      exact List.mem_append_right _ (List.mem_cons_self _ _)
    · show ((d1 ++ d2).map Prod.snd).length + 1 = st.contacts_list.length
      rw [hi.1, hsplit]
      simp only [List.length_append, List.length_map, List.length_cons]
      omega
  · intro hs hg
    refine ⟨_, _, (delete_char hi s).2.2 hs hg, ?_, ?_⟩
    · show (st.contacts.filter
          (fun p => !nameMatches (pyLower (pyStrip s)) p.2)).map Prod.snd
        = st.contacts_list.filter (fun c => !nameMatches (pyLower (pyStrip s)) c)
      rw [hi.1, List.filter_map]
      rfl
    · constructor
      · intro hb
        rw [List.any_eq_true] at hb
        obtain ⟨p, hp, hm⟩ := hb
        exact ⟨p.2, by rw [hi.1]; exact List.mem_map_of_mem Prod.snd hp, hm⟩
      · rintro ⟨c, hc2, hm⟩
        rw [hi.1, List.mem_map] at hc2
        obtain ⟨p, hp, hpc⟩ := hc2
        rw [List.any_eq_true]
        exact ⟨p, hp, by rw [hpc]; exact hm⟩

/-- Witness for C3: deleting by phone on a one-record reachable store. -/
theorem delete_spec_witness :
    ∃ st', delete kamStore (.jstr "1111111111".data) = some (true, st') ∧
      st'.contacts_list = remove_from_list kamStore.contacts_list
        ⟨"kam".data, "1111111111".data⟩ ∧
      (⟨"kam".data, "1111111111".data⟩ : Contact) ∈ kamStore.contacts_list ∧
      st'.contacts_list.length + 1 = kamStore.contacts_list.length :=
  (delete_spec kamStore
      (Reachable.addStep emptyStore (.jstr "kam".data) (.jstr "1111111111".data)
        ⟨"kam".data, "1111111111".data⟩ kamStore Reachable.empty rfl)
      "1111111111".data).2.2.1 ⟨"kam".data, "1111111111".data⟩
    (by decide) rfl (by decide)

/-- C9: in every reachable store state (empty, freshly loaded, or reached by
add/delete steps; save does not change the in-memory state), the index keys
are pairwise distinct, and so the stored records' derived keys (normalized
phone if present, else lowercased name) are pairwise distinct. -/
theorem derived_keys_unique (st : Store) (h : Reachable st) :
    (st.contacts.map Prod.fst).Nodup ∧
    (st.contacts_list.map derivedKey).Nodup := by
  have hi := reachable_inv h
  refine ⟨hi.2.1, ?_⟩
  rw [hi.1, List.map_map]
  have hcongr : List.map (derivedKey ∘ Prod.snd) st.contacts
      = List.map Prod.fst st.contacts :=
    List.map_congr_left (fun p hp => (hi.2.2 p hp).symm)
  rw [hcongr]
  exact hi.2.1

/-- Witness for C9: a store reached by loading a saved two-record store. -/
theorem derived_keys_unique_witness :
    ((load (.parsed (save goodPairStore))).contacts.map Prod.fst).Nodup ∧
    ((load (.parsed (save goodPairStore))).contacts_list.map derivedKey).Nodup :=
  derived_keys_unique _ (Reachable.loadStep _)

/-- C10: in every reachable store state, the ordered record list holds exactly
the records of the keyed index (the same multiset — in fact in the index's
order), so iteration, search, and save see precisely the indexed records. -/
theorem list_index_consistent (st : Store) (h : Reachable st) :
    List.Perm st.contacts_list (st.contacts.map Prod.snd) := by
  rw [(reachable_inv h).1]

/-- Witness for C10: the store reached by one successful add. -/
theorem list_index_consistent_witness :
    List.Perm kamStore.contacts_list (kamStore.contacts.map Prod.snd) :=
  list_index_consistent kamStore
    (Reachable.addStep emptyStore (.jstr "kam".data) (.jstr "1111111111".data)
      ⟨"kam".data, "1111111111".data⟩ kamStore Reachable.empty rfl)
